import Mathlib

/-!
Verification development for the ReportingDashboard sync pipeline.

The definitions below are a shallow embedding of the TypeScript source:

* `tryAcquire` embeds the Lua token-bucket script run by
  `RateLimiter.tryAcquire` in `src/lib/redis.ts`.  Redis stores the token
  count and the last-update timestamp in two keys, each of which may be
  absent before the first successful acquire; Lua numbers are modelled
  as rationals and millisecond timestamps as integers.
* `splitDateRange` embeds `splitDateRange` from
  `src/workers/sync-processor.ts`; calendar dates at UTC midnight are
  modelled as integer day numbers (days since 1970-01-01), under which
  the JavaScript `setDate(getDate() + k)` arithmetic is addition of `k`.
* `upsertFact` embeds the Prisma `metricsFact.upsert` calls of
  `processSyncJob` (where-key lookup, `create` on miss, `update` of all
  measure columns on hit); BigInt columns are integers and Decimal
  columns are rationals.
-/

namespace ReportingDashboard

/-- Redis-stored state of one token bucket: the token-count key and the
last-update key.  `none` models an absent Redis key (before the first
successful acquire). -/
structure BucketState where
  tokens : Option ℚ
  lastUpdate : Option ℤ
  deriving DecidableEq, Repr

/-- Constructor arguments of `RateLimiter` in `src/lib/redis.ts`:
bucket capacity and refill rate in tokens per second. -/
structure RateLimiterCfg where
  maxTokens : ℚ
  refillRate : ℚ
  deriving DecidableEq, Repr

/-- The atomic Lua script executed by `RateLimiter.tryAcquire`:
read the two keys with defaults (`maxTokens` and `now`), refill by
elapsed seconds times the refill rate, clamp to capacity, and either
deduct and write both keys (returning `true`) or leave the store
untouched (returning `false`). -/
def tryAcquire (cfg : RateLimiterCfg) (s : BucketState) (requested : ℚ)
    (now : ℤ) : Bool × BucketState :=
  let tokens0 : ℚ := s.tokens.getD cfg.maxTokens
  let lastUpdate : ℤ := s.lastUpdate.getD now
  let elapsed : ℚ := ((now : ℚ) - (lastUpdate : ℚ)) / 1000
  let tokens : ℚ := min cfg.maxTokens (tokens0 + elapsed * cfg.refillRate)
  if requested ≤ tokens then
    (true, { tokens := some (tokens - requested), lastUpdate := some now })
  else
    (false, s)

/-- The refilled, capacity-clamped token count the script computes
before the compare-and-deduct step. -/
def refilledTokens (cfg : RateLimiterCfg) (s : BucketState) (now : ℤ) : ℚ :=
  min cfg.maxTokens
    (s.tokens.getD cfg.maxTokens +
      (((now : ℚ) - ((s.lastUpdate.getD now : ℤ) : ℚ)) / 1000) * cfg.refillRate)

/-- A sequence of `n` calls to `tryAcquire` with cost 1, all at the same
timestamp `now` (zero elapsed time between calls), returning the list of
results and the final bucket state. -/
def acquireRun (cfg : RateLimiterCfg) (now : ℤ) :
    ℕ → BucketState → List Bool × BucketState
  | 0, s => ([], s)
  | n + 1, s =>
    let r := tryAcquire cfg s 1 now
    let rest := acquireRun cfg now n r.2
    (r.1 :: rest.1, rest.2)

theorem tryAcquire_eq (cfg : RateLimiterCfg) (s : BucketState) (requested : ℚ)
    (now : ℤ) :
    tryAcquire cfg s requested now =
      if requested ≤ refilledTokens cfg s now then
        (true, { tokens := some (refilledTokens cfg s now - requested),
                 lastUpdate := some now })
      else (false, s) := by
  rfl

theorem tryAcquire_step_true (cfg : RateLimiterCfg) (i : ℚ) (t : ℤ)
    (h1 : 1 ≤ i) (h2 : i ≤ cfg.maxTokens) :
    tryAcquire cfg ⟨some i, some t⟩ 1 t =
      (true, ⟨some (i - 1), some t⟩) := by
  have href : refilledTokens cfg ⟨some i, some t⟩ t = i := by
    simp [refilledTokens, min_eq_right h2]
  rw [tryAcquire_eq, href, if_pos h1]

theorem tryAcquire_step_false (cfg : RateLimiterCfg) (i : ℚ) (t : ℤ)
    (h1 : i < 1) (h2 : i ≤ cfg.maxTokens) :
    tryAcquire cfg ⟨some i, some t⟩ 1 t = (false, ⟨some i, some t⟩) := by
  have href : refilledTokens cfg ⟨some i, some t⟩ t = i := by
    simp [refilledTokens, min_eq_right h2]
  rw [tryAcquire_eq, href, if_neg (not_le.mpr h1)]

theorem acquireRun_exhausted (cfg : RateLimiterCfg) (t : ℤ)
    (hmax : 0 ≤ cfg.maxTokens) (k : ℕ) :
    acquireRun cfg t k ⟨some 0, some t⟩ =
      (List.replicate k false, ⟨some 0, some t⟩) := by
  induction k with
  | zero => rfl
  | succ n ih =>
    simp only [acquireRun, tryAcquire_step_false cfg 0 t one_pos hmax, ih]
    rfl

theorem acquireRun_drain (cfg : RateLimiterCfg) (t : ℤ) (j k : ℕ)
    (hj : (j : ℚ) ≤ cfg.maxTokens) :
    acquireRun cfg t (j + k) ⟨some (j : ℚ), some t⟩ =
      (List.replicate j true ++ List.replicate k false, ⟨some 0, some t⟩) := by
  induction j with
  | zero =>
    simpa using acquireRun_exhausted cfg t (by exact_mod_cast le_trans (by norm_num) hj) k
  | succ n ih =>
    have hn : (n : ℚ) ≤ cfg.maxTokens := by
      have : (n : ℚ) ≤ (n + 1 : ℕ) := by push_cast; linarith
      exact le_trans this hj
    have hstep : tryAcquire cfg ⟨some ((n + 1 : ℕ) : ℚ), some t⟩ 1 t =
        (true, ⟨some ((n : ℕ) : ℚ), some t⟩) := by
      have h1 : (1 : ℚ) ≤ ((n + 1 : ℕ) : ℚ) := by push_cast; linarith
      have := tryAcquire_step_true cfg ((n + 1 : ℕ) : ℚ) t h1 hj
      rw [this]
      congr 2
      push_cast
      ring_nf
    have harith : n + 1 + k = (n + k) + 1 := by omega
    rw [harith]
    simp only [acquireRun, hstep, ih hn]
    simp [List.replicate_succ]

/-- C7: for every bucket state and cost, a `tryAcquire` call that returns
false leaves the stored bucket state (token count and last-refill timestamp)
unchanged, and a call that returns true stores exactly the refilled,
capacity-clamped count minus the cost, stamped with the current time. -/
theorem tryAcquire_frame (cfg : RateLimiterCfg) (s : BucketState)
    (requested : ℚ) (now : ℤ) :
    ((tryAcquire cfg s requested now).1 = false →
      (tryAcquire cfg s requested now).2 = s) ∧
    ((tryAcquire cfg s requested now).1 = true →
      (tryAcquire cfg s requested now).2 =
        ⟨some (refilledTokens cfg s now - requested), some now⟩) := by
  rw [tryAcquire_eq]
  by_cases h : requested ≤ refilledTokens cfg s now
  · simp [h]
  · simp [h]

theorem tryAcquire_frame_witness :
    (tryAcquire ⟨10, 1⟩ ⟨some 5, some 0⟩ 3 0).1 = true ∧
    (tryAcquire ⟨10, 1⟩ ⟨some 5, some 0⟩ 3 0).2 =
      ⟨some (refilledTokens ⟨10, 1⟩ ⟨some 5, some 0⟩ 0 - 3), some 0⟩ := by
  have hres : (tryAcquire ⟨10, 1⟩ ⟨some 5, some 0⟩ 3 0).1 = true := by
    rw [tryAcquire_eq]
    norm_num [refilledTokens]
  exact ⟨hres, (tryAcquire_frame ⟨10, 1⟩ ⟨some 5, some 0⟩ 3 0).2 hres⟩

/-- C9: the stored token count stays within 0 and maxTokens across every
`tryAcquire` call with 0 ≤ cost ≤ maxTokens, for every elapsed time: the
refill is clamped to capacity before the comparison, and a deduction only
happens when at least the requested cost is available. -/
theorem tryAcquire_bucket_invariant (cfg : RateLimiterCfg) (s : BucketState)
    (requested : ℚ) (now : ℤ)
    (hreq0 : 0 ≤ requested) (_hreqmax : requested ≤ cfg.maxTokens)
    (hinv : ∀ x ∈ s.tokens, 0 ≤ x ∧ x ≤ cfg.maxTokens) :
    ∀ x ∈ (tryAcquire cfg s requested now).2.tokens,
      0 ≤ x ∧ x ≤ cfg.maxTokens := by
  rw [tryAcquire_eq]
  by_cases h : requested ≤ refilledTokens cfg s now
  · rw [if_pos h]
    intro x hx
    have hmax : refilledTokens cfg s now ≤ cfg.maxTokens := by
      unfold refilledTokens
      exact min_le_left _ _
    simp only [Option.mem_def, Option.some.injEq] at hx
    subst hx
    constructor
    · linarith
    · linarith
  · rw [if_neg h]
    exact hinv

theorem tryAcquire_bucket_invariant_witness :
    ((0 : ℚ) ≤ 2 ∧ (2 : ℚ) ≤ 10 ∧
      (∀ x ∈ (⟨some 4, some 0⟩ : BucketState).tokens,
        0 ≤ x ∧ x ≤ (⟨10, 1⟩ : RateLimiterCfg).maxTokens)) ∧
    (∀ x ∈ (tryAcquire ⟨10, 1⟩ ⟨some 4, some 0⟩ 2 0).2.tokens,
      0 ≤ x ∧ x ≤ (⟨10, 1⟩ : RateLimiterCfg).maxTokens) := by
  refine ⟨⟨by norm_num, by norm_num, ?_⟩, ?_⟩
  · intro x hx
    simp only [Option.mem_def, Option.some.injEq] at hx
    subst hx
    norm_num
  · refine tryAcquire_bucket_invariant ⟨10, 1⟩ ⟨some 4, some 0⟩ 2 0
      (by norm_num) (by norm_num) ?_
    intro x hx
    simp only [Option.mem_def, Option.some.injEq] at hx
    subst hx
    norm_num

/-- C3: starting from a full bucket of capacity N (N ≥ 1) with zero elapsed
time between calls, among N + k calls to tryAcquire(1) exactly N return true
and the remaining k return false, and a further tryAcquire(1) with zero
elapsed time also returns false.  Every call is the same atomic
refill-compare-deduct step at the same timestamp, so the order of the calls
is immaterial and the sequential run covers any order. -/
theorem rateLimiter_capacity_drain (N k : ℕ) (R : ℚ) (t : ℤ) (hN : 1 ≤ N) :
    (acquireRun ⟨(N : ℚ), R⟩ t (N + k) ⟨some (N : ℚ), some t⟩).1.count true = N ∧
    (acquireRun ⟨(N : ℚ), R⟩ t (N + k) ⟨some (N : ℚ), some t⟩).1.count false = k ∧
    (tryAcquire ⟨(N : ℚ), R⟩
      (acquireRun ⟨(N : ℚ), R⟩ t (N + k) ⟨some (N : ℚ), some t⟩).2 1 t).1 = false := by
  have hd := acquireRun_drain ⟨(N : ℚ), R⟩ t N k (le_refl _)
  rw [hd]
  refine ⟨?_, ?_, ?_⟩
  · simp [List.count_append, List.count_replicate]
  · simp [List.count_append, List.count_replicate]
  · rw [tryAcquire_step_false ⟨(N : ℚ), R⟩ 0 t one_pos (by positivity)]

theorem rateLimiter_capacity_drain_witness :
    1 ≤ 2 ∧
    ((acquireRun ⟨((2 : ℕ) : ℚ), 5⟩ 0 (2 + 1)
        ⟨some ((2 : ℕ) : ℚ), some 0⟩).1.count true = 2 ∧
      (acquireRun ⟨((2 : ℕ) : ℚ), 5⟩ 0 (2 + 1)
        ⟨some ((2 : ℕ) : ℚ), some 0⟩).1.count false = 1 ∧
      (tryAcquire ⟨((2 : ℕ) : ℚ), 5⟩
        (acquireRun ⟨((2 : ℕ) : ℚ), 5⟩ 0 (2 + 1)
          ⟨some ((2 : ℕ) : ℚ), some 0⟩).2 1 0).1 = false) :=
  ⟨by norm_num, rateLimiter_capacity_drain 2 1 5 0 (by norm_num)⟩

/-- Loop body of `splitDateRange` from `src/workers/sync-processor.ts`,
with dates as integer day numbers.  Each iteration emits the chunk
from `chunkStart` to `min (chunkStart + maxDaysPerChunk - 1) endDate` and
restarts the day after.  The JavaScript while loop is driven here by a
fuel argument; `splitDateRange` supplies fuel equal to the number of days
in the range, which is exactly enough whenever maxDaysPerChunk ≥ 1
(each emitted chunk consumes at least one day). -/
def splitDateRangeAux (m endDate : ℤ) : ℕ → ℤ → List (ℤ × ℤ)
  | 0, _ => []
  | fuel + 1, chunkStart =>
    if chunkStart ≤ endDate then
      let chunkEnd := min (chunkStart + m - 1) endDate
      (chunkStart, chunkEnd) :: splitDateRangeAux m endDate fuel (chunkEnd + 1)
    else []

/-- splitDateRange(startDate, endDate, maxDaysPerChunk) from
`src/workers/sync-processor.ts`: split an inclusive day range into
chunks of at most `m` days. -/
def splitDateRange (startDate endDate m : ℤ) : List (ℤ × ℤ) :=
  splitDateRangeAux m endDate (endDate + 1 - startDate).toNat startDate

/-- The chunk list `l` tiles the inclusive day interval from `lo` to `hi`
exactly: each chunk starts where told, is non-empty, and hands over to
the next chunk at the following day, with the whole list ending at `hi`. -/
def chainFrom (lo hi : ℤ) : List (ℤ × ℤ) → Prop
  | [] => lo = hi + 1
  | c :: rest => c.1 = lo ∧ c.1 ≤ c.2 ∧ chainFrom (c.2 + 1) hi rest

theorem chainFrom_le (lo hi : ℤ) (l : List (ℤ × ℤ)) (h : chainFrom lo hi l) :
    lo ≤ hi + 1 := by
  induction l generalizing lo with
  | nil => simp only [chainFrom] at h; omega
  | cons c rest ih =>
    obtain ⟨h1, h2, h3⟩ := h
    have := ih _ h3
    omega

theorem chainFrom_bounds (lo hi : ℤ) (l : List (ℤ × ℤ))
    (h : chainFrom lo hi l) :
    ∀ c ∈ l, lo ≤ c.1 ∧ c.1 ≤ c.2 ∧ c.2 ≤ hi := by
  induction l generalizing lo with
  | nil => intro c hc; cases hc
  | cons a rest ih =>
    obtain ⟨h1, h2, h3⟩ := h
    intro c hc
    rcases List.mem_cons.mp hc with hc | hc
    · have := chainFrom_le _ _ _ h3
      subst hc
      omega
    · have := ih _ h3 c hc
      omega

theorem chainFrom_union (lo hi : ℤ) (l : List (ℤ × ℤ))
    (h : chainFrom lo hi l) (d : ℤ) :
    (∃ c ∈ l, c.1 ≤ d ∧ d ≤ c.2) ↔ (lo ≤ d ∧ d ≤ hi) := by
  induction l generalizing lo with
  | nil =>
    simp only [chainFrom] at h
    simp only [List.not_mem_nil, false_and, exists_false, exists_const, false_iff]
    omega
  | cons a rest ih =>
    obtain ⟨h1, h2, h3⟩ := h
    have hrest := ih _ h3
    have hle := chainFrom_le _ _ _ h3
    constructor
    · rintro ⟨c, hc, hcd⟩
      rcases List.mem_cons.mp hc with hc | hc
      · subst hc; omega
      · have := (hrest).1 ⟨c, hc, hcd⟩
        omega
    · intro hd
      by_cases hda : d ≤ a.2
      · exact ⟨a, List.mem_cons_self a rest, by omega, hda⟩
      · obtain ⟨c, hc, hcd⟩ := (hrest).2 (by omega)
        exact ⟨c, List.mem_cons_of_mem a hc, hcd⟩

theorem chainFrom_chain (lo hi : ℤ) (l : List (ℤ × ℤ))
    (h : chainFrom lo hi l) :
    List.Chain' (fun c d => d.1 = c.2 + 1) l := by
  induction l generalizing lo with
  | nil => exact List.chain'_nil
  | cons a rest ih =>
    obtain ⟨h1, h2, h3⟩ := h
    rcases rest with _ | ⟨b, rest2⟩
    · simp
    · obtain ⟨hb1, hb2, hb3⟩ := h3
      exact List.Chain'.cons (by omega) (ih _ ⟨hb1, hb2, hb3⟩)

theorem chainFrom_pairwise (lo hi : ℤ) (l : List (ℤ × ℤ))
    (h : chainFrom lo hi l) :
    l.Pairwise (fun c d => c.2 < d.1) := by
  induction l generalizing lo with
  | nil => exact List.Pairwise.nil
  | cons a rest ih =>
    obtain ⟨h1, h2, h3⟩ := h
    refine List.Pairwise.cons ?_ (ih _ h3)
    intro c hc
    have := chainFrom_bounds _ _ _ h3 c hc
    omega

theorem splitDateRangeAux_chain (m endDate : ℤ) (hm : 1 ≤ m) :
    ∀ (fuel : ℕ) (cs : ℤ), cs ≤ endDate + 1 →
      (endDate + 1 - cs).toNat ≤ fuel →
      chainFrom cs endDate (splitDateRangeAux m endDate fuel cs) := by
  intro fuel
  induction fuel with
  | zero =>
    intro cs hcs hfuel
    have : cs = endDate + 1 := by omega
    simp only [splitDateRangeAux, chainFrom]
    omega
  | succ n ih =>
    intro cs hcs hfuel
    by_cases hlt : cs ≤ endDate
    · simp only [splitDateRangeAux, if_pos hlt]
      refine ⟨rfl, by omega, ?_⟩
      have hend : min (cs + m - 1) endDate + 1 ≤ endDate + 1 := by omega
      have hstep : (endDate + 1 - (min (cs + m - 1) endDate + 1)).toNat ≤ n := by
        omega
      exact ih (min (cs + m - 1) endDate + 1) hend hstep
    · simp only [splitDateRangeAux, if_neg hlt, chainFrom]
      omega

theorem splitDateRange_chain (startDate endDate m : ℤ)
    (hrange : startDate ≤ endDate) (hm : 1 ≤ m) :
    chainFrom startDate endDate (splitDateRange startDate endDate m) :=
  splitDateRangeAux_chain m endDate hm _ startDate (by omega) (by omega)

/-- C4: for every valid range (startDate ≤ endDate) and chunk size m ≥ 1,
splitDateRange returns a non-empty chunk list that is contiguous (each
chunk starts the day after the previous one ends), pairwise
non-overlapping, and whose union of days is exactly the inclusive range
from startDate to endDate. -/
theorem splitDateRange_spec (startDate endDate m : ℤ)
    (hrange : startDate ≤ endDate) (hm : 1 ≤ m) :
    splitDateRange startDate endDate m ≠ [] ∧
    List.Chain' (fun c d => d.1 = c.2 + 1)
      (splitDateRange startDate endDate m) ∧
    (splitDateRange startDate endDate m).Pairwise (fun c d => c.2 < d.1) ∧
    (∀ d : ℤ, (∃ c ∈ splitDateRange startDate endDate m, c.1 ≤ d ∧ d ≤ c.2) ↔
      (startDate ≤ d ∧ d ≤ endDate)) := by
  have h := splitDateRange_chain startDate endDate m hrange hm
  refine ⟨?_, chainFrom_chain _ _ _ h, chainFrom_pairwise _ _ _ h,
    fun d => chainFrom_union _ _ _ h d⟩
  intro hempty
  rw [hempty] at h
  simp only [chainFrom] at h
  omega

theorem splitDateRange_spec_witness :
    ((0 : ℤ) ≤ 5 ∧ (1 : ℤ) ≤ 2) ∧
    (splitDateRange 0 5 2 ≠ [] ∧
      List.Chain' (fun c d => d.1 = c.2 + 1) (splitDateRange 0 5 2) ∧
      (splitDateRange 0 5 2).Pairwise (fun c d => c.2 < d.1) ∧
      (∀ d : ℤ, (∃ c ∈ splitDateRange 0 5 2, c.1 ≤ d ∧ d ≤ c.2) ↔
        (0 ≤ d ∧ d ≤ 5))) :=
  ⟨⟨by norm_num, by norm_num⟩, splitDateRange_spec 0 5 2 (by norm_num) (by norm_num)⟩

theorem splitDateRangeAux_span (m endDate : ℤ) :
    ∀ (fuel : ℕ) (cs : ℤ), ∀ c ∈ splitDateRangeAux m endDate fuel cs,
      c.2 - c.1 + 1 ≤ m := by
  intro fuel
  induction fuel with
  | zero => intro cs c hc; cases hc
  | succ n ih =>
    intro cs c hc
    by_cases hlt : cs ≤ endDate
    · simp only [splitDateRangeAux, if_pos hlt] at hc
      rcases List.mem_cons.mp hc with hc | hc
      · subst hc; simp only []; omega
      · exact ih _ c hc
    · simp only [splitDateRangeAux, if_neg hlt] at hc
      cases hc

/-- C10: with chunk size m ≥ 1, every chunk returned by splitDateRange
spans at most m calendar days inclusive of both endpoints, and an
inverted range (startDate strictly after endDate) yields the empty list. -/
theorem splitDateRange_chunk_bound (startDate endDate m : ℤ) (_hm : 1 ≤ m) :
    (∀ c ∈ splitDateRange startDate endDate m, c.2 - c.1 + 1 ≤ m) ∧
    (endDate < startDate → splitDateRange startDate endDate m = []) := by
  constructor
  · exact splitDateRangeAux_span m endDate _ startDate
  · intro hinv
    have hfuel : (endDate + 1 - startDate).toNat = 0 := by omega
    rw [splitDateRange, hfuel]
    rfl

theorem splitDateRange_chunk_bound_witness :
    ((1 : ℤ) ≤ 3) ∧
    ((∀ c ∈ splitDateRange 10 4 3, c.2 - c.1 + 1 ≤ 3) ∧
      ((4 : ℤ) < 10 → splitDateRange 10 4 3 = [])) :=
  ⟨by norm_num, splitDateRange_chunk_bound 10 4 3 (by norm_num)⟩

/-- 2023-10-01 as a day number (days since 1970-01-01 UTC). -/
def date20231001 : ℤ := 19631

/-- 2024-01-01 as a day number (days since 1970-01-01 UTC). -/
def date20240101 : ℤ := 19723

/-- C5 counterexample: the window 2023-10-01..2024-01-01 spans 93 days
inclusive, so a 30-day chunk size produces 4 chunks, not the 3 the spec
example promises. -/
theorem splitDateRange_example_not_three :
    (splitDateRange date20231001 date20240101 30).length = 4 ∧
    ¬ (splitDateRange date20231001 date20240101 30).length = 3 := by
  decide

/-- C5 amended: splitting 2023-10-01..2024-01-01 with chunk size 30 days
produces exactly 4 chunks, none of which overlap. -/
theorem splitDateRange_example_four_chunks :
    (splitDateRange date20231001 date20240101 30).length = 4 ∧
    (splitDateRange date20231001 date20240101 30).Pairwise
      (fun c d => c.2 < d.1) := by
  constructor
  · decide
  · exact chainFrom_pairwise _ _ _
      (splitDateRange_chain date20231001 date20240101 30 (by decide) (by decide))

/-- Composite grain key of a Metrics Fact row, the Prisma unique key
date_provider_adAccountId_campaignId_adGroupId_adId used by the
`metricsFact.upsert` calls in `src/workers/sync-processor.ts`.  Dates are
day numbers, internal campaign/ad-group/ad ids are naturals assigned by
the store, and the ad-group and ad components may be null. -/
structure FactKey where
  date : ℤ
  provider : String
  adAccountId : String
  campaignId : ℕ
  adGroupId : Option ℕ
  adId : Option ℕ
  deriving DecidableEq, Repr

/-- Measure columns of a Metrics Fact row: BigInt columns as integers,
Decimal columns as rationals. -/
structure FactMeasures where
  impressions : ℤ
  clicks : ℤ
  spend : ℚ
  conversions : ℚ
  conversionValue : ℚ
  deriving DecidableEq, Repr

/-- The Metrics Fact table: rows keyed by their grain key. -/
abbrev FactStore : Type := List (FactKey × FactMeasures)

/-- Prisma `metricsFact.upsert` with the full grain key in `where`:
if a row with the key exists, the `update` branch overwrites every
measure column with the supplied values; otherwise the `create` branch
inserts a new row with the key and the supplied values. -/
def upsertFact (store : FactStore) (k : FactKey) (m : FactMeasures) :
    FactStore :=
  if store.any (fun p => decide (p.1 = k)) then
    store.map (fun p => if p.1 = k then (p.1, m) else p)
  else
    store ++ [(k, m)]

/-- Prisma `metricsFact.findUnique` by the grain key. -/
def findFact (store : FactStore) (k : FactKey) : Option FactMeasures :=
  (store.find? (fun p => decide (p.1 = k))).map Prod.snd

theorem upsertFact_cons_ne (c : FactKey × FactMeasures) (rest : FactStore)
    (k : FactKey) (m : FactMeasures) (hc : ¬ c.1 = k) :
    upsertFact (c :: rest) k m = c :: upsertFact rest k m := by
  have hany : (c :: rest).any (fun p => decide (p.1 = k)) =
      rest.any (fun p => decide (p.1 = k)) := by
    simp [List.any_cons, hc]
  unfold upsertFact
  rw [hany]
  by_cases h : rest.any (fun p => decide (p.1 = k)) = true
  · rw [if_pos h, if_pos h, List.map_cons, if_neg hc]
  · rw [if_neg h, if_neg h, List.cons_append]

theorem findFact_cons_ne (c : FactKey × FactMeasures) (rest : FactStore)
    (k : FactKey) (hc : ¬ c.1 = k) :
    findFact (c :: rest) k = findFact rest k := by
  unfold findFact
  rw [List.find?_cons_of_neg _ (by simpa using hc)]

theorem findFact_upsertFact (store : FactStore) (k : FactKey)
    (m : FactMeasures) :
    findFact (upsertFact store k m) k = some m := by
  induction store with
  | nil =>
    simp [upsertFact, findFact]
  | cons c rest ih =>
    by_cases hc : c.1 = k
    · have hany : (c :: rest).any (fun p => decide (p.1 = k)) = true := by
        simp [List.any_cons, hc]
      unfold upsertFact findFact
      rw [if_pos hany, List.map_cons, if_pos hc,
        List.find?_cons_of_pos _ (by simp [hc])]
      rfl
    · rw [upsertFact_cons_ne c rest k m hc,
        findFact_cons_ne c (upsertFact rest k m) k hc]
      exact ih

/-- C1: re-running the fact upsert for the same grain key with new measure
values leaves the stored row holding exactly the most recently supplied
measures — a full overwrite, never an accumulation, so re-running the same
day's sync is convergent. -/
theorem upsertFact_last_write_wins (store : FactStore) (k : FactKey)
    (m₁ m₂ : FactMeasures) :
    findFact (upsertFact (upsertFact store k m₁) k m₂) k = some m₂ :=
  findFact_upsertFact (upsertFact store k m₁) k m₂

/-- Connection status enum from the data model. -/
inductive ConnectionStatus
  | ACTIVE
  | EXPIRED
  | DISCONNECTED
  deriving DecidableEq, Repr

/-- Ciphertext produced by the authenticated cipher of
`src/lib/encryption.ts`, modelled as an opaque reversible wrapper around
the plaintext (the claims under verification do not depend on the
cryptography, only on decrypt being the inverse of encrypt). -/
structure Encrypted where
  plaintext : String
  deriving DecidableEq, Repr

/-- encrypt from `src/lib/encryption.ts` (abstracted cipher). -/
def encrypt (s : String) : Encrypted := ⟨s⟩

/-- decrypt from `src/lib/encryption.ts` (abstracted cipher). -/
def decrypt (e : Encrypted) : String := e.plaintext

/-- A Connection row: encrypted OAuth tokens, access-token expiry
(milliseconds; `none` when never set), status and last error. -/
structure Connection where
  accessTokenEnc : Encrypted
  refreshTokenEnc : Encrypted
  accessTokenExpiry : Option ℤ
  lastRefreshedAt : Option ℤ
  status : ConnectionStatus
  errorMessage : Option String
  deriving DecidableEq, Repr

/-- The 5-minute expiry buffer of getValidAccessToken (milliseconds). -/
def expiryBufferMs : ℤ := 5 * 60 * 1000

/-- The isExpired test of getValidAccessToken in the Google Ads library
module: the token needs a refresh when no expiry is recorded or the
expiry falls within the 5-minute buffer from now. -/
def isTokenExpired (conn : Connection) (now : ℤ) : Bool :=
  match conn.accessTokenExpiry with
  | none => true
  | some e => decide (e < now + expiryBufferMs)

/-- getValidAccessToken from the Google Ads library module.  The refresh
token exchange (a network call) is passed in as its outcome: on
`Except.ok` it yields the new access token and expiry; on `Except.error`
it carries the thrown error message.  The function returns the token or
the re-raised error, together with the persisted Connection row. -/
def getValidAccessToken (conn : Connection) (now : ℤ)
    (refreshResult : Except String (String × ℤ)) :
    Except String String × Connection :=
  if isTokenExpired conn now then
    match refreshResult with
    | Except.ok r =>
        (Except.ok r.1,
          { conn with
              accessTokenEnc := encrypt r.1
              accessTokenExpiry := some r.2
              lastRefreshedAt := some now
              status := ConnectionStatus.ACTIVE
              errorMessage := none })
    | Except.error e =>
        (Except.error e,
          { conn with
              status := ConnectionStatus.EXPIRED
              errorMessage := some e })
  else
    (Except.ok (decrypt conn.accessTokenEnc), conn)

/-- C6: for a connection whose access token is expired or within the
5-minute buffer, a failed refresh-token exchange persists the connection
with status EXPIRED and the error message and re-raises the error; the
stale decrypted access token is never returned, so callers surface the
error instead of silently retrying with a stale token. -/
theorem getValidAccessToken_refresh_failure (conn : Connection) (now : ℤ)
    (e : String) (hexp : isTokenExpired conn now = true) :
    (getValidAccessToken conn now (Except.error e)).1 = Except.error e ∧
    (getValidAccessToken conn now (Except.error e)).2.status =
      ConnectionStatus.EXPIRED ∧
    (getValidAccessToken conn now (Except.error e)).2.errorMessage = some e ∧
    (∀ tok : String,
      (getValidAccessToken conn now (Except.error e)).1 ≠ Except.ok tok) := by
  simp [getValidAccessToken, hexp]

theorem getValidAccessToken_refresh_failure_witness :
    (isTokenExpired ⟨⟨"stale"⟩, ⟨"refresh"⟩, some 100, none,
        ConnectionStatus.ACTIVE, none⟩ 0 = true) ∧
    ((getValidAccessToken ⟨⟨"stale"⟩, ⟨"refresh"⟩, some 100, none,
        ConnectionStatus.ACTIVE, none⟩ 0 (Except.error "invalid_grant")).1 =
          Except.error "invalid_grant" ∧
      (getValidAccessToken ⟨⟨"stale"⟩, ⟨"refresh"⟩, some 100, none,
        ConnectionStatus.ACTIVE, none⟩ 0
          (Except.error "invalid_grant")).2.status =
            ConnectionStatus.EXPIRED ∧
      (getValidAccessToken ⟨⟨"stale"⟩, ⟨"refresh"⟩, some 100, none,
        ConnectionStatus.ACTIVE, none⟩ 0
          (Except.error "invalid_grant")).2.errorMessage =
            some "invalid_grant" ∧
      (∀ tok : String,
        (getValidAccessToken ⟨⟨"stale"⟩, ⟨"refresh"⟩, some 100, none,
          ConnectionStatus.ACTIVE, none⟩ 0
            (Except.error "invalid_grant")).1 ≠ Except.ok tok)) := by
  have hexp : isTokenExpired ⟨⟨"stale"⟩, ⟨"refresh"⟩, some 100, none,
      ConnectionStatus.ACTIVE, none⟩ 0 = true := by
    simp [isTokenExpired, expiryBufferMs]
  exact ⟨hexp, getValidAccessToken_refresh_failure _ 0 "invalid_grant" hexp⟩

/-- Sync Job status enum from the data model. -/
inductive SyncJobStatus
  | PENDING
  | RUNNING
  | COMPLETED
  | FAILED
  | CANCELLED
  deriving DecidableEq, Repr

/-- Ad Account syncStatus enum from the data model. -/
inductive AccountSyncStatus
  | PENDING
  | SYNCING
  | SYNCED
  | ERROR
  deriving DecidableEq, Repr

/-- A durable Sync Job record (prisma.syncJob row). -/
structure SyncJobRow where
  id : ℕ
  adAccountId : String
  jobType : String
  status : SyncJobStatus
  dateFrom : ℤ
  dateTo : ℤ
  createdAt : ℤ
  errorMessage : Option String
  deriving DecidableEq, Repr

/-- An Ad Account row with the connection fields the sync route reads
(`include: { connection: true }` flattened to the status the route
checks). -/
structure AdAccountRow where
  id : String
  organizationId : String
  externalId : String
  connectionId : String
  connectionStatus : ConnectionStatus
  isEnabled : Bool
  syncStatus : AccountSyncStatus
  deriving DecidableEq, Repr

/-- Persistent state seen by the POST /api/sync/manual route: the ad
account table, the sync job table, the id to assign to the next created
job row, and the ids handed to the BullMQ queue by addSyncJob. -/
structure SyncDb where
  accounts : List AdAccountRow
  syncJobs : List SyncJobRow
  nextJobId : ℕ
  queued : List ℕ
  deriving DecidableEq, Repr

/-- Body of a manual sync request after zod validation. -/
structure ManualSyncRequest where
  accountId : String
  dateFrom : ℤ
  dateTo : ℤ
  deriving DecidableEq, Repr

/-- The route's possible responses: 404 account not found, 400 connection
not active, 400 sync already in progress, 201 job queued. -/
inductive ManualSyncResponse
  | accountNotFound
  | connectionNotActive
  | alreadyInProgress (jobId : ℕ)
  | queued (jobId : ℕ)
  deriving DecidableEq, Repr

/-- The 5-minute createdAt window of the duplicate check in
POST /api/sync/manual. -/
def recentWindowMs : ℤ := 5 * 60 * 1000

/-- Non-terminal job statuses, status: { in: [PENDING, RUNNING] }. -/
def isNonTerminal (s : SyncJobStatus) : Bool :=
  s == SyncJobStatus.PENDING || s == SyncJobStatus.RUNNING

/-- POST /api/sync/manual from the sync routes module: find the enabled
account in the caller's organization; reject when its connection is not
ACTIVE; reject when some sync job for the account is PENDING or RUNNING
and was created within the last 5 minutes; otherwise create a PENDING
Sync Job row for the requested window, flip the account to SYNCING, and
enqueue the job. -/
def enqueueManualSync (db : SyncDb) (org : String) (req : ManualSyncRequest)
    (now : ℤ) : ManualSyncResponse × SyncDb :=
  match db.accounts.find? (fun a =>
      a.id == req.accountId && a.organizationId == org && a.isEnabled) with
  | none => (ManualSyncResponse.accountNotFound, db)
  | some account =>
    if account.connectionStatus ≠ ConnectionStatus.ACTIVE then
      (ManualSyncResponse.connectionNotActive, db)
    else
      match db.syncJobs.find? (fun j =>
          j.adAccountId == account.id && isNonTerminal j.status &&
            decide (now - recentWindowMs ≤ j.createdAt)) with
      | some recentJob => (ManualSyncResponse.alreadyInProgress recentJob.id, db)
      | none =>
        let newJob : SyncJobRow :=
          { id := db.nextJobId
            adAccountId := account.id
            jobType := "MANUAL_SYNC"
            status := SyncJobStatus.PENDING
            dateFrom := req.dateFrom
            dateTo := req.dateTo
            createdAt := now
            errorMessage := none }
        (ManualSyncResponse.queued newJob.id,
          { accounts := db.accounts.map (fun a =>
              if a.id == account.id then { a with syncStatus := AccountSyncStatus.SYNCING }
              else a)
            syncJobs := db.syncJobs ++ [newJob]
            nextJobId := db.nextJobId + 1
            queued := db.queued ++ [newJob.id] })

/-- A sample enabled account with an ACTIVE connection. -/
def sampleAccount : AdAccountRow :=
  ⟨"acc1", "org1", "1234567890", "conn1", ConnectionStatus.ACTIVE, true,
    AccountSyncStatus.SYNCED⟩

/-- A non-terminal (PENDING) job for sampleAccount over days 0..10 that
was created 10 minutes in the past. -/
def staleJobRow : SyncJobRow :=
  ⟨7, "acc1", "MANUAL_SYNC", SyncJobStatus.PENDING, 0, 10, -600000, none⟩

/-- Database holding sampleAccount and the stale overlapping job. -/
def dbStale : SyncDb := ⟨[sampleAccount], [staleJobRow], 8, []⟩

/-- C2 counterexample: a PENDING job for the same account whose window
0..10 overlaps the requested window 0..10 exists, yet because it was
created 10 minutes ago (outside the route's 5-minute createdAt filter)
the request is accepted: a new Sync Job row and a new queue entry are
created.  The route never compares date ranges. -/
theorem enqueueManualSync_overlap_not_rejected :
    (staleJobRow ∈ dbStale.syncJobs ∧
      isNonTerminal staleJobRow.status = true ∧
      staleJobRow.adAccountId = "acc1" ∧
      staleJobRow.dateFrom ≤ 10 ∧ 0 ≤ staleJobRow.dateTo) ∧
    (enqueueManualSync dbStale "org1" ⟨"acc1", 0, 10⟩ 0).1 =
      ManualSyncResponse.queued 8 ∧
    (enqueueManualSync dbStale "org1" ⟨"acc1", 0, 10⟩ 0).2.syncJobs.length = 2 ∧
    (enqueueManualSync dbStale "org1" ⟨"acc1", 0, 10⟩ 0).2.queued.length = 1 := by
  decide

/-- C2 amended: a manual sync request is rejected without creating a new
Sync Job record or queue entry whenever some non-terminal (PENDING or
RUNNING) job for the requested account was created within the last
5 minutes — regardless of whether its date range overlaps the requested
window; non-terminal jobs older than 5 minutes do not block the request. -/
theorem enqueueManualSync_recent_nonterminal_reject (db : SyncDb)
    (org : String) (req : ManualSyncRequest) (now : ℤ)
    (hdup : ∃ j ∈ db.syncJobs, j.adAccountId = req.accountId ∧
      isNonTerminal j.status = true ∧ now - recentWindowMs ≤ j.createdAt) :
    (∀ jobId : ℕ,
      (enqueueManualSync db org req now).1 ≠ ManualSyncResponse.queued jobId) ∧
    (enqueueManualSync db org req now).2 = db := by
  unfold enqueueManualSync
  cases hacc : db.accounts.find? (fun a =>
      a.id == req.accountId && a.organizationId == org && a.isEnabled) with
  | none => exact ⟨(fun jobId h => by cases h), rfl⟩
  | some account =>
    have haccid : account.id = req.accountId := by
      have hp := List.find?_some hacc
      simp only [Bool.and_eq_true, beq_iff_eq] at hp
      exact hp.1.1
    by_cases hact : account.connectionStatus ≠ ConnectionStatus.ACTIVE
    · simp only [if_pos hact]
      exact ⟨(fun jobId h => by cases h), by trivial⟩
    · simp only [if_neg hact]
      obtain ⟨j, hj, hjid, hjn, hjt⟩ := hdup
      have hsome : (db.syncJobs.find? (fun j =>
          j.adAccountId == account.id && isNonTerminal j.status &&
            decide (now - recentWindowMs ≤ j.createdAt))).isSome := by
        rw [List.find?_isSome]
        refine ⟨j, hj, ?_⟩
        simp [hjid, haccid, hjn, hjt]
      cases hrec : db.syncJobs.find? (fun j =>
          j.adAccountId == account.id && isNonTerminal j.status &&
            decide (now - recentWindowMs ≤ j.createdAt)) with
      | none => rw [hrec] at hsome; cases hsome
      | some r => exact ⟨(fun jobId h => by cases h), rfl⟩

/-- A non-terminal (RUNNING) job for sampleAccount created 1 second ago
over a window 100..200 that does not overlap the request below. -/
def recentJobRow : SyncJobRow :=
  ⟨9, "acc1", "MANUAL_SYNC", SyncJobStatus.RUNNING, 100, 200, -1000, none⟩

/-- Database holding sampleAccount and the recent running job. -/
def dbRecent : SyncDb := ⟨[sampleAccount], [recentJobRow], 10, []⟩

theorem enqueueManualSync_recent_nonterminal_reject_witness :
    (∃ j ∈ dbRecent.syncJobs, j.adAccountId = "acc1" ∧
      isNonTerminal j.status = true ∧ 0 - recentWindowMs ≤ j.createdAt) ∧
    ((∀ jobId : ℕ,
        (enqueueManualSync dbRecent "org1" ⟨"acc1", 0, 10⟩ 0).1 ≠
          ManualSyncResponse.queued jobId) ∧
      (enqueueManualSync dbRecent "org1" ⟨"acc1", 0, 10⟩ 0).2 = dbRecent) :=
  ⟨by decide,
    enqueueManualSync_recent_nonterminal_reject dbRecent "org1" ⟨"acc1", 0, 10⟩ 0
      (by decide)⟩

/-- A normalized performance row as returned by fetchCampaignPerformance
and fetchAdGroupPerformance in the Google Ads library module. -/
structure PerfRow where
  date : ℤ
  campaignId : String
  campaignName : String
  adGroupId : Option String
  adGroupName : Option String
  impressions : ℤ
  clicks : ℤ
  cost : ℚ
  conversions : ℚ
  conversionValue : ℚ
  deriving DecidableEq, Repr

/-- A Campaign dimension row keyed by (adAccountId, externalId) with a
store-assigned internal id. -/
structure CampaignRow where
  id : ℕ
  adAccountId : String
  externalId : String
  name : String
  deriving DecidableEq, Repr

/-- An Ad Group dimension row keyed by (adAccountId, externalId). -/
structure AdGroupRow where
  id : ℕ
  adAccountId : String
  campaignId : ℕ
  externalId : String
  name : String
  deriving DecidableEq, Repr

/-- The warehouse state touched by processSyncJob: dimension tables, the
fact table, the id counter the store uses for new dimension rows, the
sync job table, and the ad account table. -/
structure Warehouse where
  campaigns : List CampaignRow
  adGroups : List AdGroupRow
  facts : FactStore
  nextId : ℕ
  syncJobs : List SyncJobRow
  accounts : List AdAccountRow
  deriving DecidableEq, Repr

/-- prisma.campaign.findUnique by (adAccountId, externalId). -/
def findCampaign (w : Warehouse) (accId extId : String) : Option CampaignRow :=
  w.campaigns.find? (fun c => c.adAccountId == accId && c.externalId == extId)

/-- prisma.campaign.upsert in processSyncJob: update renames only, create
inserts a fresh row with a new internal id. -/
def upsertCampaign (w : Warehouse) (accId extId nm : String) : Warehouse :=
  if w.campaigns.any (fun c => c.adAccountId == accId && c.externalId == extId) then
    { w with campaigns := w.campaigns.map (fun c =>
        if c.adAccountId == accId && c.externalId == extId then
          { c with name := nm }
        else c) }
  else
    { w with
        campaigns := w.campaigns ++ [⟨w.nextId, accId, extId, nm⟩]
        nextId := w.nextId + 1 }

/-- prisma.adGroup.findUnique by (adAccountId, externalId). -/
def findAdGroup (w : Warehouse) (accId extId : String) : Option AdGroupRow :=
  w.adGroups.find? (fun g => g.adAccountId == accId && g.externalId == extId)

/-- prisma.adGroup.upsert in processSyncJob: update renames only, create
inserts a fresh row referencing the parent campaign. -/
def upsertAdGroup (w : Warehouse) (accId : String) (campaignId : ℕ)
    (extId nm : String) : Warehouse :=
  if w.adGroups.any (fun g => g.adAccountId == accId && g.externalId == extId) then
    { w with adGroups := w.adGroups.map (fun g =>
        if g.adAccountId == accId && g.externalId == extId then
          { g with name := nm }
        else g) }
  else
    { w with
        adGroups := w.adGroups ++ [⟨w.nextId, accId, campaignId, extId, nm⟩]
        nextId := w.nextId + 1 }

/-- The row updater of a prisma.syncJob.updateMany call in
processSyncJob: rows matching the account, the date window and one of
the listed statuses get the new status (and, for the failure path, the
error message); other rows are untouched. -/
def applySyncJobUpdate (accId : String) (dateFrom dateTo : ℤ)
    (fromStatuses : List SyncJobStatus) (newStatus : SyncJobStatus)
    (err : Option String) (j : SyncJobRow) : SyncJobRow :=
  if j.adAccountId = accId ∧ j.status ∈ fromStatuses ∧
      j.dateFrom = dateFrom ∧ j.dateTo = dateTo then
    { j with
        status := newStatus
        errorMessage := match err with
          | none => j.errorMessage
          | some msg => some msg }
  else j

/-- prisma.syncJob.updateMany filtered by account, statuses and window. -/
def updateSyncJobStatus (jobs : List SyncJobRow) (accId : String)
    (dateFrom dateTo : ℤ) (fromStatuses : List SyncJobStatus)
    (newStatus : SyncJobStatus) (err : Option String) : List SyncJobRow :=
  jobs.map (applySyncJobUpdate accId dateFrom dateTo fromStatuses newStatus err)

/-- prisma.adAccount.update setting syncStatus for one account id. -/
def setAccountSyncStatus (accounts : List AdAccountRow) (accId : String)
    (st : AccountSyncStatus) : List AdAccountRow :=
  accounts.map (fun a => if a.id = accId then { a with syncStatus := st } else a)

/-- Payload fields of a sync job the worker reads. -/
structure SyncJobDataM where
  adAccountId : String
  dateFrom : ℤ
  dateTo : ℤ
  provider : String
  deriving DecidableEq, Repr

/-- Result of processSyncJob (duration omitted: wall-clock time is not
modelled). -/
structure SyncResultM where
  rowsProcessed : ℕ
  dateFrom : ℤ
  dateTo : ℤ
  deriving DecidableEq, Repr

/-- Opening writes of processSyncJob: matching PENDING job rows become
RUNNING and the account is flipped to SYNCING. -/
def processSyncJobStart (jd : SyncJobDataM) (w : Warehouse) : Warehouse :=
  { w with
      syncJobs := updateSyncJobStatus w.syncJobs jd.adAccountId jd.dateFrom
        jd.dateTo [SyncJobStatus.PENDING] SyncJobStatus.RUNNING none
      accounts := setAccountSyncStatus w.accounts jd.adAccountId
        AccountSyncStatus.SYNCING }

/-- Success writes of processSyncJob: matching RUNNING job rows become
COMPLETED and the account is flipped to SYNCED. -/
def processSyncJobFinish (jd : SyncJobDataM) (w : Warehouse) : Warehouse :=
  { w with
      syncJobs := updateSyncJobStatus w.syncJobs jd.adAccountId jd.dateFrom
        jd.dateTo [SyncJobStatus.RUNNING] SyncJobStatus.COMPLETED none
      accounts := setAccountSyncStatus w.accounts jd.adAccountId
        AccountSyncStatus.SYNCED }

/-- The catch block of processSyncJob: matching PENDING or RUNNING job
rows become FAILED with the error message, the account is flipped to
ERROR, and the error is re-thrown. -/
def processSyncJobCatch (jd : SyncJobDataM) (e : String) (w : Warehouse) :
    Except String SyncResultM × Warehouse :=
  (Except.error e,
    { w with
        syncJobs := updateSyncJobStatus w.syncJobs jd.adAccountId jd.dateFrom
          jd.dateTo [SyncJobStatus.PENDING, SyncJobStatus.RUNNING]
          SyncJobStatus.FAILED (some e)
        accounts := setAccountSyncStatus w.accounts jd.adAccountId
          AccountSyncStatus.ERROR })

/-- Tail of the campaign-level loop body after the campaign lookup: on a
resolved campaign, upsert the fact at the (campaign, null, null) grain
and count the row; on a missed lookup skip the row (the source's
if-not-campaign continue). -/
def factStepCampaign (provider accId : String) (w1 : Warehouse) (n : ℕ)
    (r : PerfRow) : Option CampaignRow → Warehouse × ℕ
  | none => (w1, n)
  | some c =>
    ({ w1 with facts := (upsertFact w1.facts
        ⟨r.date, provider, accId, c.id, none, none⟩
        ⟨r.impressions, r.clicks, r.cost, r.conversions, r.conversionValue⟩) },
      n + 1)

/-- Campaign-level loop body of processSyncJob: upsert the campaign
dimension, resolve its internal id, and hand over to `factStepCampaign`. -/
def processCampaignRow (accId provider : String) (acc : Warehouse × ℕ)
    (r : PerfRow) : Warehouse × ℕ :=
  let w1 := upsertCampaign acc.1 accId r.campaignId r.campaignName
  factStepCampaign provider accId w1 acc.2 r (findCampaign w1 accId r.campaignId)

/-- Tail of the ad-group-level loop body after the ad group lookup: on a
resolved ad group, upsert the fact at the (campaign, adGroup, null)
grain and count the row; on a missed lookup skip the row. -/
def factStepAdGroup (provider accId : String) (w1 : Warehouse)
    (c : CampaignRow) (n : ℕ) (r : PerfRow) :
    Option AdGroupRow → Warehouse × ℕ
  | none => (w1, n)
  | some ag =>
    ({ w1 with facts := (upsertFact w1.facts
        ⟨r.date, provider, accId, c.id, some ag.id, none⟩
        ⟨r.impressions, r.clicks, r.cost, r.conversions, r.conversionValue⟩) },
      n + 1)

/-- Ad-group-level loop body of processSyncJob: skip rows without an ad
group id or without a resolvable parent campaign, upsert the ad group
dimension, resolve its internal id, and hand over to `factStepAdGroup`. -/
def processAdGroupRow (accId provider : String) (acc : Warehouse × ℕ)
    (r : PerfRow) : Warehouse × ℕ :=
  match r.adGroupId with
  | none => acc
  | some agExt =>
    match findCampaign acc.1 accId r.campaignId with
    | none => acc
    | some c =>
      let w1 := upsertAdGroup acc.1 accId c.id agExt
        (r.adGroupName.getD "Unknown Ad Group")
      factStepAdGroup provider accId w1 c acc.2 r (findAdGroup w1 accId agExt)

/-- The fact pass of processSyncJob: fold the campaign-level rows, then —
inside the inner try/catch, whose failure is logged and swallowed — the
ad-group-level rows, threading the warehouse and the processed-row
count. -/
def syncFactPass (jd : SyncJobDataM) (rows : List PerfRow)
    (adGroupFetch : Except String (List PerfRow)) (w : Warehouse) :
    Warehouse × ℕ :=
  let p1 := rows.foldl (processCampaignRow jd.adAccountId jd.provider) (w, 0)
  match adGroupFetch with
  | Except.error _ => p1
  | Except.ok agRows =>
    agRows.foldl (processAdGroupRow jd.adAccountId jd.provider) p1

/-- processSyncJob from src/workers/sync-processor.ts over the warehouse
model.  The campaign fetch, the ad group fetch and the cache
invalidation (cache.delPattern) are network effects and are passed in by
outcome; the returned Except is the resolved result or the thrown
error. -/
def processSyncJob (jd : SyncJobDataM)
    (campaignFetch : Except String (List PerfRow))
    (adGroupFetch : Except String (List PerfRow))
    (invalidation : Except String Unit)
    (w : Warehouse) : Except String SyncResultM × Warehouse :=
  let w2 := processSyncJobStart jd w
  match campaignFetch with
  | Except.error e => processSyncJobCatch jd e w2
  | Except.ok campaignRows =>
    let p2 := syncFactPass jd campaignRows adGroupFetch w2
    let w4 := processSyncJobFinish jd p2.1
    match invalidation with
    | Except.ok _ => (Except.ok ⟨p2.2, jd.dateFrom, jd.dateTo⟩, w4)
    | Except.error e => processSyncJobCatch jd e w4

theorem upsertCampaign_frame (w : Warehouse) (accId extId nm : String) :
    (upsertCampaign w accId extId nm).syncJobs = w.syncJobs ∧
    (upsertCampaign w accId extId nm).accounts = w.accounts := by
  unfold upsertCampaign
  split <;> exact ⟨rfl, rfl⟩

theorem upsertAdGroup_frame (w : Warehouse) (accId : String) (campaignId : ℕ)
    (extId nm : String) :
    (upsertAdGroup w accId campaignId extId nm).syncJobs = w.syncJobs ∧
    (upsertAdGroup w accId campaignId extId nm).accounts = w.accounts := by
  unfold upsertAdGroup
  split <;> exact ⟨rfl, rfl⟩

theorem factStepCampaign_frame (provider accId : String) (w1 : Warehouse)
    (n : ℕ) (r : PerfRow) (o : Option CampaignRow) :
    (factStepCampaign provider accId w1 n r o).1.syncJobs = w1.syncJobs ∧
    (factStepCampaign provider accId w1 n r o).1.accounts = w1.accounts := by
  cases o <;> exact ⟨rfl, rfl⟩

theorem processCampaignRow_frame (accId provider : String)
    (acc : Warehouse × ℕ) (r : PerfRow) :
    (processCampaignRow accId provider acc r).1.syncJobs = acc.1.syncJobs ∧
    (processCampaignRow accId provider acc r).1.accounts = acc.1.accounts := by
  have hst := factStepCampaign_frame provider accId
    (upsertCampaign acc.1 accId r.campaignId r.campaignName) acc.2 r
    (findCampaign (upsertCampaign acc.1 accId r.campaignId r.campaignName)
      accId r.campaignId)
  have hup := upsertCampaign_frame acc.1 accId r.campaignId r.campaignName
  exact ⟨hst.1.trans hup.1, hst.2.trans hup.2⟩

theorem factStepAdGroup_frame (provider accId : String) (w1 : Warehouse)
    (c : CampaignRow) (n : ℕ) (r : PerfRow) (o : Option AdGroupRow) :
    (factStepAdGroup provider accId w1 c n r o).1.syncJobs = w1.syncJobs ∧
    (factStepAdGroup provider accId w1 c n r o).1.accounts = w1.accounts := by
  cases o <;> exact ⟨rfl, rfl⟩

theorem processAdGroupRow_frame (accId provider : String)
    (acc : Warehouse × ℕ) (r : PerfRow) :
    (processAdGroupRow accId provider acc r).1.syncJobs = acc.1.syncJobs ∧
    (processAdGroupRow accId provider acc r).1.accounts = acc.1.accounts := by
  unfold processAdGroupRow
  cases hag : r.adGroupId with
  | none => exact ⟨rfl, rfl⟩
  | some agExt =>
    cases hfc : findCampaign acc.1 accId r.campaignId with
    | none => exact ⟨rfl, rfl⟩
    | some c =>
      have hst := factStepAdGroup_frame provider accId
        (upsertAdGroup acc.1 accId c.id agExt
          (r.adGroupName.getD "Unknown Ad Group")) c acc.2 r
        (findAdGroup (upsertAdGroup acc.1 accId c.id agExt
          (r.adGroupName.getD "Unknown Ad Group")) accId agExt)
      have hup := upsertAdGroup_frame acc.1 accId c.id agExt
        (r.adGroupName.getD "Unknown Ad Group")
      exact ⟨hst.1.trans hup.1, hst.2.trans hup.2⟩

theorem foldl_warehouse_frame (g : Warehouse × ℕ → PerfRow → Warehouse × ℕ)
    (hg : ∀ acc r, (g acc r).1.syncJobs = acc.1.syncJobs ∧
      (g acc r).1.accounts = acc.1.accounts)
    (rows : List PerfRow) (acc : Warehouse × ℕ) :
    (rows.foldl g acc).1.syncJobs = acc.1.syncJobs ∧
    (rows.foldl g acc).1.accounts = acc.1.accounts := by
  induction rows generalizing acc with
  | nil => exact ⟨rfl, rfl⟩
  | cons r rest ih =>
    simp only [List.foldl_cons]
    obtain ⟨ih1, ih2⟩ := ih (g acc r)
    obtain ⟨h1, h2⟩ := hg acc r
    exact ⟨ih1.trans h1, ih2.trans h2⟩

theorem syncFactPass_frame (jd : SyncJobDataM) (rows : List PerfRow)
    (adGroupFetch : Except String (List PerfRow)) (w : Warehouse) :
    (syncFactPass jd rows adGroupFetch w).1.syncJobs = w.syncJobs ∧
    (syncFactPass jd rows adGroupFetch w).1.accounts = w.accounts := by
  unfold syncFactPass
  have h1 := foldl_warehouse_frame (processCampaignRow jd.adAccountId jd.provider)
    (processCampaignRow_frame jd.adAccountId jd.provider) rows (w, 0)
  cases adGroupFetch with
  | error e => exact h1
  | ok agRows =>
    have h2 := foldl_warehouse_frame (processAdGroupRow jd.adAccountId jd.provider)
      (processAdGroupRow_frame jd.adAccountId jd.provider) agRows
      (rows.foldl (processCampaignRow jd.adAccountId jd.provider) (w, 0))
    exact ⟨h2.1.trans h1.1, h2.2.trans h1.2⟩

theorem applySyncJobUpdate_spec (accId : String) (dateFrom dateTo : ℤ)
    (fromStatuses : List SyncJobStatus) (newStatus : SyncJobStatus)
    (err : Option String) (j : SyncJobRow) :
    (applySyncJobUpdate accId dateFrom dateTo fromStatuses newStatus err j).adAccountId
        = j.adAccountId ∧
    (applySyncJobUpdate accId dateFrom dateTo fromStatuses newStatus err j).dateFrom
        = j.dateFrom ∧
    (applySyncJobUpdate accId dateFrom dateTo fromStatuses newStatus err j).dateTo
        = j.dateTo ∧
    (applySyncJobUpdate accId dateFrom dateTo fromStatuses newStatus err j).status
        = (if j.adAccountId = accId ∧ j.status ∈ fromStatuses ∧
            j.dateFrom = dateFrom ∧ j.dateTo = dateTo
           then newStatus else j.status) := by
  unfold applySyncJobUpdate
  by_cases h : j.adAccountId = accId ∧ j.status ∈ fromStatuses ∧
      j.dateFrom = dateFrom ∧ j.dateTo = dateTo
  · rw [if_pos h, if_pos h]
    exact ⟨rfl, rfl, rfl, rfl⟩
  · rw [if_neg h, if_neg h]
    exact ⟨rfl, rfl, rfl, rfl⟩

theorem setAccountSyncStatus_spec (accounts : List AdAccountRow)
    (accId : String) (st : AccountSyncStatus) :
    ∀ a ∈ setAccountSyncStatus accounts accId st,
      a.id = accId → a.syncStatus = st := by
  intro a ha hid
  obtain ⟨a0, ha0, hfa⟩ := List.mem_map.mp ha
  by_cases h : a0.id = accId
  · rw [if_pos h] at hfa
    rw [← hfa]
  · rw [if_neg h] at hfa
    rw [← hfa] at hid
    exact absurd hid h

/-- C8 amended: when the fact pass has completed and every Sync Job row
for the job's account and window is non-terminal going in, a failing
cache invalidation leaves those rows COMPLETED (the failure-path
updateMany only matches PENDING/RUNNING rows), but the invalidation
error is re-thrown out of the handler — so the queue-level job fails —
and the account's syncStatus is set to ERROR.  The failure is not merely
logged. -/
theorem processSyncJob_invalidation_failure (jd : SyncJobDataM)
    (rows : List PerfRow) (agRes : Except String (List PerfRow)) (e : String)
    (w : Warehouse)
    (hpend : ∀ j ∈ w.syncJobs, j.adAccountId = jd.adAccountId →
      j.dateFrom = jd.dateFrom → j.dateTo = jd.dateTo →
      (j.status = SyncJobStatus.PENDING ∨ j.status = SyncJobStatus.RUNNING)) :
    (processSyncJob jd (Except.ok rows) agRes (Except.error e) w).1 =
      Except.error e ∧
    (∀ j ∈ (processSyncJob jd (Except.ok rows) agRes (Except.error e) w).2.syncJobs,
      j.adAccountId = jd.adAccountId → j.dateFrom = jd.dateFrom →
      j.dateTo = jd.dateTo → j.status = SyncJobStatus.COMPLETED) ∧
    (∀ a ∈ (processSyncJob jd (Except.ok rows) agRes (Except.error e) w).2.accounts,
      a.id = jd.adAccountId → a.syncStatus = AccountSyncStatus.ERROR) := by
  have heq : processSyncJob jd (Except.ok rows) agRes (Except.error e) w =
      processSyncJobCatch jd e (processSyncJobFinish jd
        (syncFactPass jd rows agRes (processSyncJobStart jd w)).1) := rfl
  rw [heq]
  refine ⟨rfl, ?_, ?_⟩
  · intro j hj hacc hdf hdt
    have hmid := syncFactPass_frame jd rows agRes (processSyncJobStart jd w)
    simp only [processSyncJobCatch, processSyncJobFinish,
      updateSyncJobStatus] at hj
    rw [hmid.1] at hj
    simp only [processSyncJobStart, updateSyncJobStatus] at hj
    obtain ⟨j2, hj2, hfj2⟩ := List.mem_map.mp hj
    obtain ⟨j1, hj1, hfj1⟩ := List.mem_map.mp hj2
    obtain ⟨j0, hj0, hfj0⟩ := List.mem_map.mp hj1
    have hs1 := applySyncJobUpdate_spec jd.adAccountId jd.dateFrom jd.dateTo
      [SyncJobStatus.PENDING] SyncJobStatus.RUNNING none j0
    rw [hfj0] at hs1
    have hs2 := applySyncJobUpdate_spec jd.adAccountId jd.dateFrom jd.dateTo
      [SyncJobStatus.RUNNING] SyncJobStatus.COMPLETED none j1
    rw [hfj1] at hs2
    have hs3 := applySyncJobUpdate_spec jd.adAccountId jd.dateFrom jd.dateTo
      [SyncJobStatus.PENDING, SyncJobStatus.RUNNING] SyncJobStatus.FAILED
      (some e) j2
    rw [hfj2] at hs3
    have hj0acc : j0.adAccountId = jd.adAccountId := by
      rw [← hs1.1, ← hs2.1, ← hs3.1]; exact hacc
    have hj0df : j0.dateFrom = jd.dateFrom := by
      rw [← hs1.2.1, ← hs2.2.1, ← hs3.2.1]; exact hdf
    have hj0dt : j0.dateTo = jd.dateTo := by
      rw [← hs1.2.2.1, ← hs2.2.2.1, ← hs3.2.2.1]; exact hdt
    have hj1acc : j1.adAccountId = jd.adAccountId := by
      rw [hs1.1]; exact hj0acc
    have hj1df : j1.dateFrom = jd.dateFrom := by
      rw [hs1.2.1]; exact hj0df
    have hj1dt : j1.dateTo = jd.dateTo := by
      rw [hs1.2.2.1]; exact hj0dt
    have hj2acc : j2.adAccountId = jd.adAccountId := by
      rw [hs2.1]; exact hj1acc
    have hj2df : j2.dateFrom = jd.dateFrom := by
      rw [hs2.2.1]; exact hj1df
    have hj2dt : j2.dateTo = jd.dateTo := by
      rw [hs2.2.2.1]; exact hj1dt
    have hj1status : j1.status = SyncJobStatus.RUNNING := by
      rcases hpend j0 hj0 hj0acc hj0df hj0dt with hp | hr
      · rw [hs1.2.2.2, if_pos ⟨hj0acc, by simp [hp], hj0df, hj0dt⟩]
      · rw [hs1.2.2.2, if_neg (by simp [hr])]
        exact hr
    have hj2status : j2.status = SyncJobStatus.COMPLETED := by
      rw [hs2.2.2.2, if_pos ⟨hj1acc, by simp [hj1status], hj1df, hj1dt⟩]
    rw [hs3.2.2.2, if_neg (by simp [hj2status])]
    exact hj2status
  · simp only [processSyncJobCatch]
    exact setAccountSyncStatus_spec _ _ _

/-- Payload of a sample manual sync over days 0..1. -/
def jdSample : SyncJobDataM := ⟨"acc1", 0, 1, "GOOGLE_ADS"⟩

/-- Warehouse holding sampleAccount and one matching PENDING sync job. -/
def wSample : Warehouse :=
  ⟨[], [], [], 0,
    [⟨1, "acc1", "MANUAL_SYNC", SyncJobStatus.PENDING, 0, 1, 0, none⟩],
    [sampleAccount]⟩

/-- C8 counterexample: the fact pass completes (both fetches succeed),
the cache invalidation fails, and — contrary to the claim that the
failure is only logged — processSyncJob re-throws the invalidation
error and flips the account's syncStatus to ERROR.  Only the Sync Job
row itself stays COMPLETED. -/
theorem processSyncJob_invalidation_failure_counterexample :
    (processSyncJob jdSample (Except.ok []) (Except.ok [])
        (Except.error "redis down") wSample).1 = Except.error "redis down" ∧
    (∀ r : SyncResultM,
      (processSyncJob jdSample (Except.ok []) (Except.ok [])
        (Except.error "redis down") wSample).1 ≠ Except.ok r) ∧
    ((processSyncJob jdSample (Except.ok []) (Except.ok [])
        (Except.error "redis down") wSample).2.accounts.map
          AdAccountRow.syncStatus) = [AccountSyncStatus.ERROR] ∧
    ((processSyncJob jdSample (Except.ok []) (Except.ok [])
        (Except.error "redis down") wSample).2.syncJobs.map
          SyncJobRow.status) = [SyncJobStatus.COMPLETED] := by
  refine ⟨rfl, ?_, by decide, by decide⟩
  intro r h
  have h1 : (processSyncJob jdSample (Except.ok []) (Except.ok [])
      (Except.error "redis down") wSample).1 = Except.error "redis down" := rfl
  rw [h1] at h
  cases h

theorem processSyncJob_invalidation_failure_witness :
    (∀ j ∈ wSample.syncJobs, j.adAccountId = jdSample.adAccountId →
      j.dateFrom = jdSample.dateFrom → j.dateTo = jdSample.dateTo →
      (j.status = SyncJobStatus.PENDING ∨ j.status = SyncJobStatus.RUNNING)) ∧
    ((processSyncJob jdSample (Except.ok []) (Except.ok [])
        (Except.error "boom") wSample).1 = Except.error "boom" ∧
      (∀ j ∈ (processSyncJob jdSample (Except.ok []) (Except.ok [])
          (Except.error "boom") wSample).2.syncJobs,
        j.adAccountId = jdSample.adAccountId → j.dateFrom = jdSample.dateFrom →
        j.dateTo = jdSample.dateTo → j.status = SyncJobStatus.COMPLETED) ∧
      (∀ a ∈ (processSyncJob jdSample (Except.ok []) (Except.ok [])
          (Except.error "boom") wSample).2.accounts,
        a.id = jdSample.adAccountId →
          a.syncStatus = AccountSyncStatus.ERROR)) :=
  ⟨by decide,
    processSyncJob_invalidation_failure jdSample [] (Except.ok []) "boom" wSample
      (by decide)⟩

end ReportingDashboard
